import Mathlib

/-!
Verification of `climate_toolbox/aggregations/aggregations.py`.

The module performs weighted spatial aggregation of gridded climate data:
a spatial reindexer (`_reindex_spatial_data_to_regions`), a weighted
reducer (`_aggregate_reindexed_data_to_regions`), a flat-table variant
(`aggregate_array`), a weights provider (`_prepare_spatial_weights_data`,
memoized with `toolz.memoize`), and the orchestrating entry point
(`weighted_aggregate_grid_to_regions`).

Numeric values are modelled by `EF`: a finite rational, `+inf`, `-inf`, or
`NaN`.  Exact rational arithmetic stands in for finite floating-point
arithmetic; the IEEE-754 special-value propagation rules that the claims
depend on (NaN propagation, `x.where(cond)` producing NaN, `fillna`,
`skipna` sums, division by zero producing `inf`/`NaN`, `0 * inf = NaN`)
are modelled explicitly.
-/

namespace ClimateToolbox

/-- A floating-point value as numpy/pandas see it: a finite number
(modelled as an exact rational), positive infinity, negative infinity,
or NaN. -/
inductive EF where
  | fin (q : ℚ)
  | pinf
  | ninf
  | nan
deriving DecidableEq

/-- IEEE-754 addition on `EF` (as used by numpy/pandas element sums):
NaN propagates, `inf + (-inf) = NaN`. -/
def EF.add : EF → EF → EF
  | .nan, _ => .nan
  | _, .nan => .nan
  | .fin a, .fin b => .fin (a + b)
  | .fin _, .pinf => .pinf
  | .pinf, .fin _ => .pinf
  | .fin _, .ninf => .ninf
  | .ninf, .fin _ => .ninf
  | .pinf, .pinf => .pinf
  | .ninf, .ninf => .ninf
  | .pinf, .ninf => .nan
  | .ninf, .pinf => .nan

/-- IEEE-754 multiplication on `EF`: NaN propagates, `0 * inf = NaN`. -/
def EF.mul : EF → EF → EF
  | .nan, _ => .nan
  | _, .nan => .nan
  | .fin a, .fin b => .fin (a * b)
  | .fin a, .pinf => if 0 < a then .pinf else if a < 0 then .ninf else .nan
  | .pinf, .fin b => if 0 < b then .pinf else if b < 0 then .ninf else .nan
  | .fin a, .ninf => if 0 < a then .ninf else if a < 0 then .pinf else .nan
  | .ninf, .fin b => if 0 < b then .ninf else if b < 0 then .pinf else .nan
  | .pinf, .pinf => .pinf
  | .ninf, .ninf => .pinf
  | .pinf, .ninf => .ninf
  | .ninf, .pinf => .ninf

/-- IEEE-754 division on `EF`: NaN propagates, `x / 0` is `+-inf` for
`x` nonzero and `NaN` for `x = 0` (signed zeros are abstracted away:
finite zero is unsigned, so `inf / 0 = inf`), `finite / inf = 0`,
`inf / inf = NaN`. -/
def EF.div : EF → EF → EF
  | .nan, _ => .nan
  | _, .nan => .nan
  | .fin a, .fin b =>
      if b = 0 then (if 0 < a then .pinf else if a < 0 then .ninf else .nan)
      else .fin (a / b)
  | .fin _, .pinf => .fin 0
  | .fin _, .ninf => .fin 0
  | .pinf, .fin b => if 0 ≤ b then .pinf else .ninf
  | .ninf, .fin b => if 0 ≤ b then .ninf else .pinf
  | .pinf, .pinf => .nan
  | .pinf, .ninf => .nan
  | .ninf, .pinf => .nan
  | .ninf, .ninf => .nan

/-- The comparison `x > 0` as numpy evaluates it (`NaN > 0` is `False`). -/
def EF.gt0 : EF → Bool
  | .fin a => decide (0 < a)
  | .pinf => true
  | .ninf => false
  | .nan => false

/-- `pd.notnull` / `xr.notnull`: everything except NaN is non-null
(infinities are non-null). -/
def EF.notnull : EF → Bool
  | .nan => false
  | _ => true

/-- `x.fillna(y)`: replace NaN by `y`. -/
def EF.fillna (x y : EF) : EF := if x = .nan then y else x

/-- `x.where(cond)`: keep `x` where `cond` holds, NaN elsewhere. -/
def EF.keepWhere (x : EF) (cond : Bool) : EF := if cond then x else .nan

/-- A `skipna=True` sum, the default of `xarray`/`pandas` `.sum()`:
NaN entries are skipped (an all-NaN or empty list sums to `0`);
infinities participate. -/
def skipSum (l : List EF) : EF :=
  l.foldr (fun x acc => if x = EF.nan then acc else EF.add x acc) (EF.fin 0)

/-- The fallback-adjusted weight of one point, from
`ds[aggwt].where(ds[aggwt] > 0).fillna(weights[backup_aggwt].values)`
(aggregations.py lines 80-83): the primary weight where it is strictly
positive, the backup weight elsewhere (zero, negative, or NaN primary). -/
def effectiveWeight (w b : EF) : EF := EF.fillna (EF.keepWhere w (EF.gt0 w)) b

/-- A well-formed weight value per the data model: a non-negative finite
number, or NaN (missing). -/
def wtOk : EF → Prop
  | .fin q => 0 ≤ q
  | .nan => True
  | .pinf => False
  | .ninf => False

instance : DecidablePred wtOk := fun x =>
  match x with
  | .fin q => inferInstanceAs (Decidable (0 ≤ q))
  | .nan => inferInstanceAs (Decidable True)
  | .pinf => inferInstanceAs (Decidable False)
  | .ninf => inferInstanceAs (Decidable False)

/-- A strictly positive finite weight value. -/
def wtPos : EF → Prop
  | .fin q => 0 < q
  | .nan => False
  | .pinf => False
  | .ninf => False

instance : DecidablePred wtPos := fun x =>
  match x with
  | .fin q => inferInstanceAs (Decidable (0 < q))
  | .nan => inferInstanceAs (Decidable False)
  | .pinf => inferInstanceAs (Decidable False)
  | .ninf => inferInstanceAs (Decidable False)

/-- One row of the weights table as consumed by one aggregation call:
the point coordinates (`lon`/`lat` after the provider's renaming), the
region label in the selected `agglev` column, and the values of the
selected `aggwt` and `backup_aggwt` columns.  Coordinates are exact
rationals (grid coordinates are compared for exact equality by
`xarray.Dataset.sel`). -/
structure WRow (L : Type) where
  lon : ℚ
  lat : ℚ
  label : L
  aggwt : EF
  backup : EF
deriving DecidableEq

/-- Association-list update, mirroring `ds[name] = value` /
`ds.coords[name] = value`: overwrite an existing binding, else append. -/
def setAssoc {α : Type} (l : List (String × α)) (k : String) (v : α) :
    List (String × α) :=
  match l with
  | [] => [(k, v)]
  | e :: rest => if e.1 = k then (k, v) :: rest else e :: setAssoc rest k v

/-- Association-list lookup, mirroring `ds[name]` / `ds.coords[name]`. -/
def getAssoc {α : Type} (l : List (String × α)) (k : String) : Option α :=
  match l with
  | [] => none
  | e :: rest => if e.1 = k then some e.2 else getAssoc rest k

/-- The state of an xarray `Dataset` after reindexing: every data
variable is a list of values along the `reshape_index` dimension, each
value a function of the remaining extra dimensions (e.g. time), indexed
by a type `T`; non-dimension coordinates (such as the region-label
coordinate the reducer attaches) hold one label per point. -/
structure DS (T L : Type) where
  vars : List (String × List (T → EF))
  coords : List (String × List L)

/-- `ds[name] = value` on a data variable (in-place in Python; modelled
by returning the updated dataset). -/
def DS.setVar {T L : Type} (ds : DS T L) (n : String) (v : List (T → EF)) :
    DS T L :=
  { ds with vars := setAssoc ds.vars n v }

/-- `ds[name]` on a data variable. -/
def DS.getVar {T L : Type} (ds : DS T L) (n : String) :
    Option (List (T → EF)) :=
  getAssoc ds.vars n

/-- `ds.coords[name] = value` (in-place in Python; modelled by returning
the updated dataset). -/
def DS.setCoord {T L : Type} (ds : DS T L) (n : String) (v : List L) :
    DS T L :=
  { ds with coords := setAssoc ds.coords n v }

/-- `ds.coords[name]`. -/
def DS.getCoord {T L : Type} (ds : DS T L) (n : String) : Option (List L) :=
  getAssoc ds.coords n

/-- A gridded dataset: its latitude and longitude coordinate axes, and
its data variables, each a function of an exact (lon, lat) coordinate
and of the extra dimensions `T`. -/
structure Grid (T : Type) where
  lats : List ℚ
  lons : List ℚ
  vars : List (String × (ℚ → ℚ → T → EF))

/-- Data-variable lookup on a grid. -/
def Grid.getVar {T : Type} (g : Grid T) (n : String) :
    Option (ℚ → ℚ → T → EF) :=
  getAssoc g.vars n

/-- The error class of a failed coordinate lookup: `xarray.Dataset.sel`
with labels absent from the index raises `KeyError`, a subclass of
`LookupError`. -/
inductive AggErr where
  | lookupError
deriving DecidableEq

/-- Whether every weights-table row addresses a coordinate present in
the grid's axes (the success condition of the batched `sel`). -/
def validRows {L : Type} (lats lons : List ℚ) (rows : List (WRow L)) : Bool :=
  rows.all (fun r => decide (r.lat ∈ lats) && decide (r.lon ∈ lons))

/-- `_reindex_spatial_data_to_regions` (aggregations.py lines 8-35):
vectorized point-wise selection `ds.sel(lon=lon_indexer, lat=lat_indexer)`
with both indexers laid out along a new `reshape_index` dimension, one
entry per weights-table row in row order.  A label absent from an axis
raises `KeyError` (`LookupError`).  (The `xarray < 0.10` branch performs
the same point selection via `sel_points`.) -/
def _reindex_spatial_data_to_regions {T L : Type}
    (ds : Grid T) (df : List (WRow L)) : Except AggErr (DS T L) :=
  if validRows ds.lats ds.lons df then
    .ok ⟨ds.vars.map (fun p => (p.1, df.map (fun r => p.2 r.lon r.lat))), []⟩
  else
    .error AggErr.lookupError

/-- `groupby(agglev).sum(dim='reshape_index')` with the default
`skipna` behaviour: points are grouped by their label in the grouping
coordinate and summed within each group. -/
def groupbySum {L : Type} [DecidableEq L]
    (labels : List L) (xs : List EF) (g : L) : EF :=
  skipSum (((labels.zip xs).filter (fun p => decide (p.1 = g))).map
    (fun p => p.2))

/-- `_aggregate_reindexed_data_to_regions` (aggregations.py lines 38-96).
The Python function mutates the dataset passed to it (attaching the
region-label coordinate named `agglev` and overwriting/creating the data
variable named `aggwt` with the fallback-adjusted weights) and returns a
new one-variable dataset holding the weighted mean; the embedding
returns the mutated dataset as the first component and the weighted
result (region label -> extra dims -> value) as the second.  The Python
name `variable` is a Lean keyword, hence `varname`.  A `variable` name
absent from the dataset raises `KeyError` in Python; the theorems below
hypothesise it is present. -/
def _aggregate_reindexed_data_to_regions {T L : Type} [DecidableEq L]
    (ds : DS T L) (varname aggwt agglev : String) (weights : List (WRow L)) :
    DS T L × (L → T → EF) :=
  -- ds.coords[agglev] = xr.DataArray(weights[agglev].values, dims=...)
  let ds1 := ds.setCoord agglev (weights.map (fun r => r.label))
  -- ds[aggwt] = xr.DataArray(weights[aggwt].values, dims=...)
  -- (a 1-D variable along reshape_index: constant in the extra dims)
  let ds2 := ds1.setVar aggwt (weights.map (fun r => fun _ => r.aggwt))
  -- ds[aggwt] = ds[aggwt].where(ds[aggwt] > 0)
  --                      .fillna(weights[backup_aggwt].values)
  let w1 := (ds2.getVar aggwt).getD []
  let ds3 := ds2.setVar aggwt
    ((w1.zip (weights.map (fun r => r.backup))).map
      (fun p => fun t => EF.fillna (EF.keepWhere (p.1 t) (EF.gt0 (p.1 t))) p.2))
  -- weighted = (ds[variable]*ds[aggwt]).groupby(agglev).sum('reshape_index')
  --          / ds[aggwt].groupby(agglev).sum('reshape_index')
  let labels := (ds3.getCoord agglev).getD []
  let vl := (ds3.getVar varname).getD []
  let wl := (ds3.getVar aggwt).getD []
  (ds3, fun g t =>
    EF.div
      (groupbySum labels ((vl.zip wl).map (fun p => EF.mul (p.1 t) (p.2 t))) g)
      (groupbySum labels (wl.map (fun f => f t)) g))

/-- The per-(group, extra-dim) computation of `aggregate_array`
(aggregations.py lines 110-126) after reindexing, on the list of
(reindexed value, weights row) pairs: the flat dataframe's weighted
column `weight * value` is computed from the raw weight, then the weight
column is masked where the value is null
(`weight.where(pd.notnull(value))`), both are group-summed with the
pandas default `skipna`, and the result is
`weighted_sum * (1. / weight_sum).fillna(0)`.  There is no
backup-weight fallback in this path. -/
def aggregateArrayCore {T L : Type} [DecidableEq L]
    (z : List ((T → EF) × WRow L)) (g : L) (t : T) : EF :=
  let grp := z.filter (fun p => decide (p.2.label = g))
  let wvsum := skipSum (grp.map (fun p => EF.mul p.2.aggwt (p.1 t)))
  let wsum := skipSum (grp.map
    (fun p => EF.keepWhere p.2.aggwt (EF.notnull (p.1 t))))
  EF.mul wvsum (EF.fillna (EF.div (EF.fin 1) wsum) (EF.fin 0))

/-- `aggregate_array` (aggregations.py lines 99-126), specialised to a
single region-label column (the case the refinement claim is about).
`arr` is the data array with coordinate axes `lats`/`lons`; the
weights-table rows carry the region label and the `weight_col` values
(in the `aggwt` field; the `backup` field is not consulted - the Python
function has no backup-weight parameter).  The initial
`arr.sel(lon=..., lat=...)` is the same exact-label vectorized selection
as the array path and raises `KeyError` for a missing coordinate. -/
def aggregate_array {T L : Type} [DecidableEq L]
    (arr : ℚ → ℚ → T → EF) (lats lons : List ℚ) (weight_df : List (WRow L)) :
    Except AggErr (L → T → EF) :=
  if validRows lats lons weight_df then
    let vals := weight_df.map (fun r => arr r.lon r.lat)
    .ok (fun g t => aggregateArrayCore (vals.zip weight_df) g t)
  else
    .error AggErr.lookupError

/-- `weighted_aggregate_grid_to_regions` (aggregations.py lines 129-176),
with the weights table passed explicitly (the `weights=None` default
loads it through the provider, modelled separately).  `ds.sel` builds a
fresh dataset, so the caller's grid is returned unmodified as the first
component; the second component is the weighted result (the returned
one-variable dataset). -/
def weighted_aggregate_grid_to_regions {T L : Type} [DecidableEq L]
    (ds : Grid T) (varname aggwt agglev : String) (weights : List (WRow L)) :
    Except AggErr (Grid T × (L → T → EF)) :=
  match _reindex_spatial_data_to_regions ds weights with
  | .error e => .error e
  | .ok dsR =>
    .ok (ds, (_aggregate_reindexed_data_to_regions dsR varname aggwt agglev
      weights).2)

/-- Specification-side formula: the group numerator
`sum(value * weight)` of one region label, over (value, row) pairs,
with the post-fallback weight, skipping NaN terms. -/
def regionNum {T L : Type} [DecidableEq L]
    (z : List ((T → EF) × WRow L)) (g : L) (t : T) : EF :=
  skipSum (z.filterMap (fun p =>
    if p.2.label = g then
      some (EF.mul (p.1 t) (effectiveWeight p.2.aggwt p.2.backup))
    else none))

/-- Specification-side formula: the group denominator `sum(weight)` of
one region label, with the post-fallback weight, skipping NaN terms. -/
def regionDen {L : Type} [DecidableEq L]
    (weights : List (WRow L)) (g : L) : EF :=
  skipSum (weights.filterMap (fun r =>
    if r.label = g then some (effectiveWeight r.aggwt r.backup) else none))

/-- One row of the weights table as loaded from the CSV source: the raw
pixel-center coordinate columns and the remaining columns (region
labels, weight columns, ...) as an association list of column name to
value. -/
structure RawRow where
  pix_cent_x : EF
  pix_cent_y : EF
  other : List (String × EF)
deriving DecidableEq

/-- One row of the processed weights table, after the provider renames
`pix_cent_x`/`pix_cent_y` to `lon`/`lat`. -/
structure PRow where
  lon : EF
  lat : EF
  other : List (String × EF)
deriving DecidableEq

/-- `df.drop_duplicates()`: drop exact duplicate rows, keeping the first
occurrence.  The source calls this without assigning the result, so it
has no effect on the returned table. -/
def drop_duplicates (l : List RawRow) : List RawRow := l.eraseDups

/-- The transformation `_prepare_spatial_weights_data` (aggregations.py
lines 179-219) applies to the loaded dataframe:
`df.set_value(df['pix_cent_x'] == 180.125, 'pix_cent_x', -179.875)`
(whose boolean-mask index falls through `set_value`'s
`except (KeyError, TypeError)` branch to `df.loc[mask, col] = value`,
i.e. a masked column assignment); a discarded `df.drop_duplicates()`;
renaming the index to `reshape_index` (metadata only); and renaming the
columns `pix_cent_x -> lon`, `pix_cent_y -> lat`. -/
def _prepare_spatial_weights_data (df : List RawRow) : List PRow :=
  let df1 := df.map (fun r =>
    if r.pix_cent_x = EF.fin 180.125 then { r with pix_cent_x := EF.fin (-179.875) }
    else r)
  let _dropped := drop_duplicates df1
  df1.map (fun r => ⟨r.pix_cent_x, r.pix_cent_y, r.other⟩)

/-- The process-wide cache installed by `@toolz.memoize`: one entry per
argument value already seen (`weights_file`, which is `None` for the
default call), plus a count of how many times the underlying source was
actually read. -/
structure MemoState where
  cache : List (Option String × List PRow)
  fileReads : ℕ

/-- Lookup in the memoization cache by argument value. -/
def cacheLookup (l : List (Option String × List PRow)) (k : Option String) :
    Option (List PRow) :=
  match l with
  | [] => none
  | e :: rest => if e.1 = k then some e.2 else cacheLookup rest k

/-- `_prepare_spatial_weights_data` as decorated by `@toolz.memoize`
(aggregations.py lines 179-219): the cache is keyed on the argument
value, so it applies to every argument, not only the no-argument
default.  On a miss the source is read (`pd.read_csv(weights_file)` for
an explicit path, the datafs archive for the default), processed, and
the result is stored; on a hit the stored table is returned with no
read.  `readCSV` and `defaultRaw` model the two read capabilities. -/
def memoized_prepare (defaultRaw : List RawRow) (readCSV : String → List RawRow)
    (st : MemoState) (arg : Option String) : List PRow × MemoState :=
  match cacheLookup st.cache arg with
  | some t => (t, st)
  | none =>
    let raw := match arg with
      | none => defaultRaw
      | some p => readCSV p
    let t := _prepare_spatial_weights_data raw
    (t, ⟨st.cache ++ [(arg, t)], st.fileReads + 1⟩)

/-! Basic reduction lemmas for the `EF` operations. -/

@[simp] lemma EF.add_fin_fin (a b : ℚ) : EF.add (.fin a) (.fin b) = .fin (a + b) := rfl

@[simp] lemma EF.add_nan_left (x : EF) : EF.add .nan x = .nan := by cases x <;> rfl

@[simp] lemma EF.add_nan_right (x : EF) : EF.add x .nan = .nan := by cases x <;> rfl

@[simp] lemma EF.add_fin_pinf (a : ℚ) : EF.add (.fin a) .pinf = .pinf := rfl

@[simp] lemma EF.add_pinf_fin (a : ℚ) : EF.add .pinf (.fin a) = .pinf := rfl

@[simp] lemma EF.add_fin_ninf (a : ℚ) : EF.add (.fin a) .ninf = .ninf := rfl

@[simp] lemma EF.add_ninf_fin (a : ℚ) : EF.add .ninf (.fin a) = .ninf := rfl

@[simp] lemma EF.mul_fin_fin (a b : ℚ) : EF.mul (.fin a) (.fin b) = .fin (a * b) := rfl

@[simp] lemma EF.mul_nan_left (x : EF) : EF.mul .nan x = .nan := by cases x <;> rfl

@[simp] lemma EF.mul_nan_right (x : EF) : EF.mul x .nan = .nan := by cases x <;> rfl

lemma EF.mul_fin_pinf (a : ℚ) :
    EF.mul (.fin a) .pinf = if 0 < a then .pinf else if a < 0 then .ninf else .nan := rfl

lemma EF.mul_pinf_fin (a : ℚ) :
    EF.mul .pinf (.fin a) = if 0 < a then .pinf else if a < 0 then .ninf else .nan := rfl

/-- Multiplication on `EF` is commutative. -/
lemma EF.mul_comm (x y : EF) : EF.mul x y = EF.mul y x := by
  cases x <;> cases y <;> simp [EF.mul]
  ring

/-- Multiplying a finite zero by anything gives finite zero or NaN
(NaN against NaN/infinite factors). -/
lemma EF.mul_fin_zero_left (x : EF) :
    EF.mul (.fin 0) x = .fin 0 ∨ EF.mul (.fin 0) x = .nan := by
  cases x <;> simp [EF.mul]

/-- Multiplying by NaN gives NaN. -/
lemma EF.mul_nan_right_eq (x : EF) : EF.mul x .nan = .nan := by cases x <;> rfl

@[simp] lemma EF.div_fin_fin (a b : ℚ) (h : b ≠ 0) :
    EF.div (.fin a) (.fin b) = .fin (a / b) := by
  simp [EF.div, h]

@[simp] lemma EF.div_fin_zero_zero : EF.div (.fin 0) (.fin 0) = .nan := by
  norm_num [EF.div]

@[simp] lemma EF.gt0_fin (a : ℚ) : EF.gt0 (.fin a) = decide (0 < a) := rfl

@[simp] lemma EF.gt0_nan : EF.gt0 .nan = false := rfl

@[simp] lemma EF.gt0_pinf : EF.gt0 .pinf = true := rfl

@[simp] lemma EF.gt0_ninf : EF.gt0 .ninf = false := rfl

@[simp] lemma EF.notnull_fin (a : ℚ) : EF.notnull (.fin a) = true := rfl

@[simp] lemma EF.notnull_nan : EF.notnull .nan = false := rfl

@[simp] lemma EF.notnull_pinf : EF.notnull .pinf = true := rfl

@[simp] lemma EF.notnull_ninf : EF.notnull .ninf = true := rfl

@[simp] lemma EF.fillna_fin (a : ℚ) (y : EF) : EF.fillna (.fin a) y = .fin a := rfl

@[simp] lemma EF.fillna_nan (y : EF) : EF.fillna .nan y = y := rfl

@[simp] lemma EF.fillna_pinf (y : EF) : EF.fillna .pinf y = .pinf := rfl

@[simp] lemma EF.fillna_ninf (y : EF) : EF.fillna .ninf y = .ninf := rfl

@[simp] lemma EF.keepWhere_true (x : EF) : EF.keepWhere x true = x := rfl

@[simp] lemma EF.keepWhere_false (x : EF) : EF.keepWhere x false = .nan := rfl

@[simp] lemma skipSum_nil : skipSum [] = EF.fin 0 := rfl

lemma skipSum_cons (x : EF) (l : List EF) :
    skipSum (x :: l) = if x = EF.nan then skipSum l else EF.add x (skipSum l) := rfl

@[simp] lemma skipSum_cons_fin (a : ℚ) (l : List EF) :
    skipSum (EF.fin a :: l) = EF.add (EF.fin a) (skipSum l) := rfl

@[simp] lemma skipSum_cons_nan (l : List EF) : skipSum (EF.nan :: l) = skipSum l := rfl

@[simp] lemma skipSum_cons_pinf (l : List EF) :
    skipSum (EF.pinf :: l) = EF.add EF.pinf (skipSum l) := rfl

@[simp] lemma skipSum_cons_ninf (l : List EF) :
    skipSum (EF.ninf :: l) = EF.add EF.ninf (skipSum l) := rfl

/-- Adding a term that is a finite zero or NaN does not change a
`skipna` fold step. -/
lemma skipStep_drop {t : EF} (ht : t = EF.fin 0 ∨ t = EF.nan) (acc : EF) :
    (if t = EF.nan then acc else EF.add t acc) = acc := by
  rcases ht with h | h <;> subst h
  · cases acc <;> simp
  · simp

/-- Removing a middle element that is a finite zero or NaN does not
change a `skipna` sum. -/
lemma skipSum_middle {t : EF} (ht : t = EF.fin 0 ∨ t = EF.nan)
    (l1 l2 : List EF) : skipSum (l1 ++ t :: l2) = skipSum (l1 ++ l2) := by
  induction l1 with
  | nil => simpa [skipSum] using skipStep_drop ht (skipSum l2)
  | cons a l ih => simp only [List.cons_append, skipSum_cons, ih]

/-- A `skipna` sum of terms that are each finite zero or NaN is zero. -/
lemma skipSum_zeroNan {l : List EF}
    (h : ∀ x ∈ l, x = EF.fin 0 ∨ x = EF.nan) : skipSum l = EF.fin 0 := by
  induction l with
  | nil => rfl
  | cons a l ih =>
    have ha := h a (List.mem_cons_self a l)
    have hl := ih (fun x hx => h x (List.mem_cons_of_mem a hx))
    rw [skipSum_cons, skipStep_drop ha, hl]

/-! Properties of the fallback weight rule. -/

/-- The fallback keeps a strictly positive primary weight. -/
lemma effectiveWeight_of_gt0 {w : EF} (b : EF) (h : EF.gt0 w = true) :
    effectiveWeight w b = w := by
  cases w with
  | fin q => simp [effectiveWeight, h]
  | pinf => simp [effectiveWeight]
  | ninf => simp [EF.gt0] at h
  | nan => simp [EF.gt0] at h

/-- The fallback replaces any primary weight that is not strictly
positive (zero, negative, infinite-negative, or NaN) by the backup. -/
lemma effectiveWeight_of_not_gt0 {w : EF} (b : EF) (h : EF.gt0 w = false) :
    effectiveWeight w b = b := by
  cases w with
  | fin q =>
    have hq : decide (0 < q) = false := by simpa [EF.gt0] using h
    simp [effectiveWeight, hq]
  | pinf => simp [EF.gt0] at h
  | ninf => simp [effectiveWeight, EF.gt0]
  | nan => simp [effectiveWeight, EF.gt0]

/-- A zero or NaN primary weight is replaced by the backup. -/
lemma effectiveWeight_zero_nan {w : EF} (b : EF)
    (h : w = EF.fin 0 ∨ w = EF.nan) : effectiveWeight w b = b := by
  rcases h with h | h <;> subst h <;> simp [effectiveWeight]

/-- Substituting a weight for itself is the identity: the fallback of
`b` with backup `b` is `b`. -/
lemma effectiveWeight_self (b : EF) : effectiveWeight b b = b := by
  rcases h : EF.gt0 b with _ | _
  · exact effectiveWeight_of_not_gt0 b h
  · exact effectiveWeight_of_gt0 b h

/-- The fallback of two well-formed weights is well-formed. -/
lemma wtOk_effectiveWeight {w b : EF} (hw : wtOk w) (hb : wtOk b) :
    wtOk (effectiveWeight w b) := by
  rcases h : EF.gt0 w with _ | _
  · rw [effectiveWeight_of_not_gt0 b h]; exact hb
  · rw [effectiveWeight_of_gt0 b h]; exact hw

/-! Association-list lemmas for the dataset embedding. -/

lemma getAssoc_setAssoc_self {α : Type} (l : List (String × α)) (k : String)
    (v : α) : getAssoc (setAssoc l k v) k = some v := by
  induction l with
  | nil => simp [setAssoc, getAssoc]
  | cons e rest ih =>
    by_cases h : e.1 = k
    · simp [setAssoc, getAssoc, h]
    · simp [setAssoc, getAssoc, h, ih]

lemma getAssoc_setAssoc_ne {α : Type} (l : List (String × α)) {k m : String}
    (v : α) (h : k ≠ m) : getAssoc (setAssoc l k v) m = getAssoc l m := by
  induction l with
  | nil => simp [setAssoc, getAssoc, h]
  | cons e rest ih =>
    by_cases he : e.1 = k
    · simp [setAssoc, getAssoc, he, h]
    · simp only [setAssoc, getAssoc, if_neg he, ih]

lemma getAssoc_map {α β : Type} (F : α → β) (l : List (String × α))
    (n : String) :
    getAssoc (l.map (fun p => (p.1, F p.2))) n = (getAssoc l n).map F := by
  induction l with
  | nil => simp [getAssoc]
  | cons e rest ih =>
    by_cases h : e.1 = n
    · simp [getAssoc, h]
    · simp [getAssoc, h, ih]

@[simp] lemma DS.getVar_setVar_self {T L : Type} (ds : DS T L) (n : String)
    (v : List (T → EF)) : (ds.setVar n v).getVar n = some v :=
  getAssoc_setAssoc_self _ _ _

lemma DS.getVar_setVar_ne {T L : Type} (ds : DS T L) {n m : String}
    (v : List (T → EF)) (h : n ≠ m) : (ds.setVar n v).getVar m = ds.getVar m :=
  getAssoc_setAssoc_ne _ _ h

@[simp] lemma DS.getCoord_setCoord_self {T L : Type} (ds : DS T L) (n : String)
    (v : List L) : (ds.setCoord n v).getCoord n = some v :=
  getAssoc_setAssoc_self _ _ _

lemma DS.getCoord_setCoord_ne {T L : Type} (ds : DS T L) {n m : String}
    (v : List L) (h : n ≠ m) :
    (ds.setCoord n v).getCoord m = ds.getCoord m :=
  getAssoc_setAssoc_ne _ _ h

@[simp] lemma DS.getVar_setCoord {T L : Type} (ds : DS T L) (c n : String)
    (v : List L) : (ds.setCoord c v).getVar n = ds.getVar n := rfl

@[simp] lemma DS.getCoord_setVar {T L : Type} (ds : DS T L) (n c : String)
    (v : List (T → EF)) : (ds.setVar n v).getCoord c = ds.getCoord c := rfl

/-! Grouping lemmas. -/

/-- `groupby` over parallel `map`s of one list is a filtered sum. -/
lemma groupbySum_map {α L : Type} [DecidableEq L] (l : List α) (f : α → L)
    (h : α → EF) (g : L) :
    groupbySum (l.map f) (l.map h) g
      = skipSum (l.filterMap (fun x => if f x = g then some (h x) else none)) := by
  unfold groupbySum
  congr 1
  induction l with
  | nil => simp
  | cons a l ih =>
    by_cases hg : f a = g <;>
      simp [List.zip_cons_cons, List.filter_cons, hg, ih]

/-- The numerator groupby of the reducer, rewritten as a filtered sum
over (value, row) pairs. -/
lemma groupbySum_num_eq {T L : Type} [DecidableEq L] (vlist : List (T → EF))
    (weights : List (WRow L)) (hlen : vlist.length = weights.length)
    (g : L) (t : T) :
    groupbySum (weights.map (fun r => r.label))
      ((vlist.zip (weights.map
          (fun r => fun _ => effectiveWeight r.aggwt r.backup))).map
        (fun p => EF.mul (p.1 t) (p.2 t))) g
      = regionNum (vlist.zip weights) g t := by
  rw [List.zip_map_right, List.map_map]
  have h1 : weights.map (fun r => r.label)
      = (vlist.zip weights).map (fun p => p.2.label) := by
    conv_lhs => rw [← List.map_snd_zip vlist weights hlen.ge]
    rw [List.map_map]
    rfl
  rw [h1]
  exact groupbySum_map (vlist.zip weights) _ _ g

/-- The denominator groupby of the reducer, rewritten as a filtered sum
over the weights rows. -/
lemma groupbySum_den_eq {T L : Type} [DecidableEq L]
    (weights : List (WRow L)) (g : L) (t : T) :
    groupbySum (weights.map (fun r => r.label))
      ((weights.map (fun r => fun _ : T => effectiveWeight r.aggwt r.backup)).map
        (fun f => f t)) g
      = regionDen weights g := by
  rw [List.map_map]
  exact groupbySum_map weights _ _ g

/-- Closed form of the reducer: its result at a region label and an
extra-dimension index is the filtered weighted sum divided by the
filtered weight sum, with the fallback-adjusted weights. -/
lemma aggregate_snd_eq {T L : Type} [DecidableEq L] (ds : DS T L)
    (varname aggwt agglev : String) (weights : List (WRow L))
    (vlist : List (T → EF)) (hvar : ds.getVar varname = some vlist)
    (hlen : vlist.length = weights.length) (hne : varname ≠ aggwt)
    (g : L) (t : T) :
    (_aggregate_reindexed_data_to_regions ds varname aggwt agglev weights).2 g t
      = EF.div (regionNum (vlist.zip weights) g t) (regionDen weights g) := by
  simp only [_aggregate_reindexed_data_to_regions, DS.getVar_setVar_self,
    Option.getD_some, DS.getCoord_setVar, DS.getCoord_setCoord_self]
  rw [List.zip_map', List.map_map]
  rw [DS.getVar_setVar_ne _ _ (Ne.symm hne), DS.getVar_setVar_ne _ _ (Ne.symm hne),
    DS.getVar_setCoord, hvar, Option.getD_some]
  rw [show ((fun p : (T → EF) × EF => fun t => EF.fillna (EF.keepWhere (p.1 t)
        (EF.gt0 (p.1 t))) p.2) ∘ (fun r : WRow L => ((fun _ : T => r.aggwt), r.backup)))
      = (fun r : WRow L => fun _ : T => effectiveWeight r.aggwt r.backup) from rfl]
  rw [groupbySum_num_eq vlist weights hlen g t, groupbySum_den_eq weights g t]

/-- Multiplying on the right by finite zero or NaN gives finite zero or
NaN. -/
lemma EF.mul_right_zero_nan {b : EF} (hb : b = EF.fin 0 ∨ b = EF.nan)
    (x : EF) : EF.mul x b = EF.fin 0 ∨ EF.mul x b = EF.nan := by
  rcases hb with h | h <;> subst h
  · rcases EF.mul_fin_zero_left x with h | h
    · left; rw [EF.mul_comm]; exact h
    · right; rw [EF.mul_comm]; exact h
  · right; exact EF.mul_nan_right x

/-- C1: for every reindexed dataset, weights table, variable name,
weight column and region-level column, the reducer's result for a
region label `g`, at each extra-dimension index `t` independently, is
`sum(value * weight) / sum(weight)` over exactly the points carrying
label `g` — the weighted arithmetic mean with the (fallback-adjusted)
weights, not the unweighted mean.  `regionNum`/`regionDen` are the
spec's group sums `sum(value * weight)` and `sum(weight)`. -/
theorem C1_weighted_mean_per_region {T L : Type} [DecidableEq L] (ds : DS T L)
    (varname aggwt agglev : String) (weights : List (WRow L))
    (vlist : List (T → EF)) (hvar : ds.getVar varname = some vlist)
    (hlen : vlist.length = weights.length) (hne : varname ≠ aggwt)
    (g : L) (t : T) :
    (_aggregate_reindexed_data_to_regions ds varname aggwt agglev weights).2 g t
      = EF.div (regionNum (vlist.zip weights) g t) (regionDen weights g) :=
  aggregate_snd_eq ds varname aggwt agglev weights vlist hvar hlen hne g t

/-- Witness for C1 at a concrete two-point dataset. -/
theorem C1_weighted_mean_per_region_witness :
    (_aggregate_reindexed_data_to_regions
        (⟨[("tas", [fun _ => EF.fin 10, fun _ => EF.fin 40])], []⟩ : DS Unit String)
        "tas" "popwt" "hierid"
        [⟨0, 0, "A", EF.fin 3, EF.fin 1⟩, ⟨1, 0, "A", EF.fin 1, EF.fin 1⟩]).2 "A" ()
      = EF.div
          (regionNum ([fun _ => EF.fin 10, fun _ => EF.fin 40].zip
            [⟨0, 0, "A", EF.fin 3, EF.fin 1⟩, ⟨1, 0, "A", EF.fin 1, EF.fin 1⟩]) "A" ())
          (regionDen [⟨0, 0, "A", EF.fin 3, EF.fin 1⟩, ⟨1, 0, "A", EF.fin 1, EF.fin 1⟩]
            "A") :=
  C1_weighted_mean_per_region
    (⟨[("tas", [fun _ => EF.fin 10, fun _ => EF.fin 40])], []⟩ : DS Unit String)
    "tas" "popwt" "hierid"
    [⟨0, 0, "A", EF.fin 3, EF.fin 1⟩, ⟨1, 0, "A", EF.fin 1, EF.fin 1⟩]
    [fun _ => EF.fin 10, fun _ => EF.fin 40] rfl rfl (by decide) "A" ()

/-- C2: in the reducer, a point whose primary weight is zero or NaN has
the backup weight substituted for that same point before any group sum
is taken (first conjunct: the result is the same as if the row's weight
column held the backup value); and if the backup is also zero or NaN,
the point contributes zero weight and zero numerator to its region —
removing it entirely changes nothing, silently (second conjunct). -/
theorem C2_backup_fallback_before_aggregation {T L : Type} [DecidableEq L]
    (ds dsE : DS T L) (varname aggwt agglev : String)
    (vl1 vl2 : List (T → EF)) (v : T → EF) (ws1 ws2 : List (WRow L))
    (r : WRow L) (hvar : ds.getVar varname = some (vl1 ++ v :: vl2))
    (hvarE : dsE.getVar varname = some (vl1 ++ vl2))
    (hlen1 : vl1.length = ws1.length) (hlen2 : vl2.length = ws2.length)
    (hne : varname ≠ aggwt) (hw : r.aggwt = EF.fin 0 ∨ r.aggwt = EF.nan) :
    (∀ g t,
      (_aggregate_reindexed_data_to_regions ds varname aggwt agglev
          (ws1 ++ r :: ws2)).2 g t
        = (_aggregate_reindexed_data_to_regions ds varname aggwt agglev
            (ws1 ++ { r with aggwt := r.backup } :: ws2)).2 g t)
    ∧ ((r.backup = EF.fin 0 ∨ r.backup = EF.nan) →
      ∀ g t,
        (_aggregate_reindexed_data_to_regions ds varname aggwt agglev
            (ws1 ++ r :: ws2)).2 g t
          = (_aggregate_reindexed_data_to_regions dsE varname aggwt agglev
              (ws1 ++ ws2)).2 g t) := by
  have hlen : (vl1 ++ v :: vl2).length = (ws1 ++ r :: ws2).length := by
    simp [hlen1, hlen2]
  have hlen' : (vl1 ++ v :: vl2).length
      = (ws1 ++ { r with aggwt := r.backup } :: ws2).length := by
    simp [hlen1, hlen2]
  have hlenE : (vl1 ++ vl2).length = (ws1 ++ ws2).length := by
    simp [hlen1, hlen2]
  have heff : effectiveWeight r.aggwt r.backup = r.backup :=
    effectiveWeight_zero_nan _ hw
  constructor
  · intro g t
    rw [aggregate_snd_eq ds varname aggwt agglev _ _ hvar hlen hne g t,
      aggregate_snd_eq ds varname aggwt agglev _ _ hvar hlen' hne g t]
    have hNum : regionNum ((vl1 ++ v :: vl2).zip (ws1 ++ r :: ws2)) g t
        = regionNum ((vl1 ++ v :: vl2).zip
            (ws1 ++ { r with aggwt := r.backup } :: ws2)) g t := by
      unfold regionNum
      rw [List.zip_append hlen1, List.zip_append hlen1, List.zip_cons_cons,
        List.zip_cons_cons, List.filterMap_append, List.filterMap_append]
      congr 1
      by_cases hg : r.label = g <;>
        simp [List.filterMap_cons, hg, heff, effectiveWeight_self]
    have hDen : regionDen (ws1 ++ r :: ws2) g
        = regionDen (ws1 ++ { r with aggwt := r.backup } :: ws2) g := by
      unfold regionDen
      rw [List.filterMap_append, List.filterMap_append]
      congr 1
      by_cases hg : r.label = g <;>
        simp [List.filterMap_cons, hg, heff, effectiveWeight_self]
    rw [hNum, hDen]
  · intro hb g t
    rw [aggregate_snd_eq ds varname aggwt agglev _ _ hvar hlen hne g t,
      aggregate_snd_eq dsE varname aggwt agglev _ _ hvarE hlenE hne g t]
    have hNum : regionNum ((vl1 ++ v :: vl2).zip (ws1 ++ r :: ws2)) g t
        = regionNum ((vl1 ++ vl2).zip (ws1 ++ ws2)) g t := by
      unfold regionNum
      rw [List.zip_append hlen1, List.zip_append hlen1, List.zip_cons_cons,
        List.filterMap_append, List.filterMap_append]
      by_cases hg : r.label = g
      · simp only [List.filterMap_cons, hg, if_pos rfl, heff]
        exact skipSum_middle (EF.mul_right_zero_nan hb (v t)) _ _
      · simp [List.filterMap_cons, hg]
    have hDen : regionDen (ws1 ++ r :: ws2) g = regionDen (ws1 ++ ws2) g := by
      unfold regionDen
      rw [List.filterMap_append, List.filterMap_append]
      by_cases hg : r.label = g
      · simp only [List.filterMap_cons, hg, if_pos rfl, heff]
        exact skipSum_middle hb _ _
      · simp [List.filterMap_cons, hg]
    rw [hNum, hDen]

/-- Witness for C2 at a concrete one-point dataset whose only point has
primary weight 0 and backup weight 0. -/
theorem C2_backup_fallback_before_aggregation_witness :
    (∀ g t,
      (_aggregate_reindexed_data_to_regions
          (⟨[("tas", [fun _ => EF.fin 7])], []⟩ : DS Unit String)
          "tas" "popwt" "hierid"
          ([] ++ (⟨0, 0, "A", EF.fin 0, EF.fin 0⟩ : WRow String) :: [])).2 g t
        = (_aggregate_reindexed_data_to_regions
            (⟨[("tas", [fun _ => EF.fin 7])], []⟩ : DS Unit String)
            "tas" "popwt" "hierid"
            ([] ++ ({ (⟨0, 0, "A", EF.fin 0, EF.fin 0⟩ : WRow String) with
                aggwt := (⟨0, 0, "A", EF.fin 0, EF.fin 0⟩ : WRow String).backup }
              :: []))).2 g t)
    ∧ (((⟨0, 0, "A", EF.fin 0, EF.fin 0⟩ : WRow String).backup = EF.fin 0
        ∨ (⟨0, 0, "A", EF.fin 0, EF.fin 0⟩ : WRow String).backup = EF.nan) →
      ∀ g t,
        (_aggregate_reindexed_data_to_regions
            (⟨[("tas", [fun _ => EF.fin 7])], []⟩ : DS Unit String)
            "tas" "popwt" "hierid"
            ([] ++ (⟨0, 0, "A", EF.fin 0, EF.fin 0⟩ : WRow String) :: [])).2 g t
          = (_aggregate_reindexed_data_to_regions
              (⟨[("tas", [])], []⟩ : DS Unit String)
              "tas" "popwt" "hierid" ([] ++ [])).2 g t) :=
  C2_backup_fallback_before_aggregation
    (⟨[("tas", [fun _ => EF.fin 7])], []⟩ : DS Unit String)
    (⟨[("tas", [])], []⟩ : DS Unit String) "tas" "popwt" "hierid"
    [] [] (fun _ => EF.fin 7) [] [] ⟨0, 0, "A", EF.fin 0, EF.fin 0⟩
    rfl rfl rfl rfl (by decide) (Or.inl rfl)

/-- C10: the reducer's retained-weight condition is `weight > 0`, so the
backup fallback fires for every primary weight that is not strictly
positive — a negative primary weight is replaced exactly as a zero or
NaN one is. -/
theorem C10_nonpositive_weight_triggers_fallback (w b : EF) :
    (EF.gt0 w = false → effectiveWeight w b = b)
    ∧ (EF.gt0 w = true → effectiveWeight w b = w)
    ∧ (∀ q : ℚ, EF.gt0 (EF.fin q) = false ↔ q ≤ 0) :=
  ⟨effectiveWeight_of_not_gt0 b, effectiveWeight_of_gt0 b,
    fun q => by simp [EF.gt0, not_lt]⟩

/-- Witness for C10 at a negative primary weight. -/
theorem C10_nonpositive_weight_triggers_fallback_witness :
    EF.gt0 (EF.fin (-3)) = false
    ∧ effectiveWeight (EF.fin (-3)) (EF.fin 5) = EF.fin 5 := by
  have h : EF.gt0 (EF.fin (-3)) = false := by norm_num [EF.gt0]
  exact ⟨h,
    (C10_nonpositive_weight_triggers_fallback (EF.fin (-3)) (EF.fin 5)).1 h⟩

/-- C5: in the table returned by the weights provider, every row whose
raw pixel-center longitude equals 180.125 appears with longitude
-179.875, and every other row and every other column value (latitude
and all remaining columns) is unchanged from the loaded source, in the
same order (the discarded `drop_duplicates()` removes nothing). -/
theorem C5_longitude_normalization (df : List RawRow) :
    _prepare_spatial_weights_data df
      = df.map (fun r =>
          ⟨if r.pix_cent_x = EF.fin 180.125 then EF.fin (-179.875)
            else r.pix_cent_x,
           r.pix_cent_y, r.other⟩) := by
  unfold _prepare_spatial_weights_data
  rw [List.map_map]
  refine List.map_congr_left (fun r hr => ?_)
  by_cases h : r.pix_cent_x = EF.fin 180.125 <;> simp [h]

/-- Appending a fresh cache entry makes it findable when it was absent
before. -/
lemma cacheLookup_append_self (l : List (Option String × List PRow))
    (k : Option String) (v : List PRow) (h : cacheLookup l k = none) :
    cacheLookup (l ++ [(k, v)]) k = some v := by
  induction l with
  | nil => simp [cacheLookup]
  | cons e rest ih =>
    by_cases he : e.1 = k
    · simp [cacheLookup, he] at h
    · simp only [List.cons_append, cacheLookup, if_neg he] at h ⊢
      exact ih h

/-- C9: the memoized weights provider caches on the argument value for
every argument, not only the no-argument default: immediately after any
call, a second call with the same argument (in particular the same
explicit `weights_file` path) returns exactly the table computed by the
first call, with the cache state unchanged and no additional source
read (`fileReads` stays put). -/
theorem C9_memoized_on_every_argument (d : List RawRow)
    (read : String → List RawRow) (st : MemoState) (a : Option String) :
    memoized_prepare d read (memoized_prepare d read st a).2 a
      = ((memoized_prepare d read st a).1, (memoized_prepare d read st a).2) := by
  cases h : cacheLookup st.cache a with
  | some t => simp [memoized_prepare, h]
  | none =>
    simp only [memoized_prepare, h]
    rw [cacheLookup_append_self _ _ _ h]

/-- C6: when every weights-table point maps to a valid grid coordinate,
the reindexer succeeds and returns a dataset whose every variable has
exactly one entry along the single `reshape_index` dimension per
weights-table row, in weights-table row order (each entry being the
grid value sampled at that row's coordinates, with the extra dimensions
carried through unchanged); latitude/longitude are gone — the result
carries no other structure (`coords = []`). -/
theorem C6_reindex_one_row_per_weight {T L : Type} (grid : Grid T)
    (df : List (WRow L))
    (h : ∀ r ∈ df, r.lat ∈ grid.lats ∧ r.lon ∈ grid.lons) :
    ∃ ds, _reindex_spatial_data_to_regions grid df = .ok ds
      ∧ (∀ n, ds.getVar n
          = (grid.getVar n).map (fun f => df.map (fun r => f r.lon r.lat)))
      ∧ (∀ n l, ds.getVar n = some l → l.length = df.length)
      ∧ ds.coords = [] := by
  have hval : validRows grid.lats grid.lons df = true := by
    unfold validRows
    rw [List.all_eq_true]
    intro r hr
    rcases h r hr with ⟨h1, h2⟩
    simp [h1, h2]
  refine ⟨⟨grid.vars.map (fun p => (p.1, df.map (fun r => p.2 r.lon r.lat))), []⟩,
    ?_, ?_, ?_, rfl⟩
  · simp [_reindex_spatial_data_to_regions, hval]
  · intro n
    exact getAssoc_map (fun f : ℚ → ℚ → T → EF =>
      df.map (fun r => f r.lon r.lat)) grid.vars n
  · intro n l hl
    have hmap := getAssoc_map (fun f : ℚ → ℚ → T → EF =>
      df.map (fun r => f r.lon r.lat)) grid.vars n
    rw [DS.getVar] at hl
    rw [hl] at hmap
    cases hg : Grid.getVar grid n with
    | none => rw [Grid.getVar] at hg; rw [hg] at hmap; exact absurd hmap (by simp)
    | some f =>
      rw [Grid.getVar] at hg; rw [hg] at hmap
      have : l = df.map (fun r => f r.lon r.lat) := by
        simpa using hmap
      rw [this, List.length_map]

/-- Witness for C6 at a concrete 1x2 grid and two weights rows. -/
theorem C6_reindex_one_row_per_weight_witness :
    ∃ ds, _reindex_spatial_data_to_regions
        (⟨[0], [0, 1], [("tas", fun lo la _ => EF.fin (lo + la))]⟩ : Grid Unit)
        [(⟨0, 0, "A", EF.fin 1, EF.fin 1⟩ : WRow String),
         ⟨1, 0, "B", EF.fin 1, EF.fin 1⟩] = .ok ds
      ∧ (∀ n, ds.getVar n
          = ((⟨[0], [0, 1], [("tas", fun lo la _ => EF.fin (lo + la))]⟩ :
              Grid Unit).getVar n).map
            (fun f => [(⟨0, 0, "A", EF.fin 1, EF.fin 1⟩ : WRow String),
              ⟨1, 0, "B", EF.fin 1, EF.fin 1⟩].map (fun r => f r.lon r.lat)))
      ∧ (∀ n l, ds.getVar n = some l
          → l.length = [(⟨0, 0, "A", EF.fin 1, EF.fin 1⟩ : WRow String),
              ⟨1, 0, "B", EF.fin 1, EF.fin 1⟩].length)
      ∧ ds.coords = [] :=
  C6_reindex_one_row_per_weight
    (⟨[0], [0, 1], [("tas", fun lo la _ => EF.fin (lo + la))]⟩ : Grid Unit)
    [⟨0, 0, "A", EF.fin 1, EF.fin 1⟩, ⟨1, 0, "B", EF.fin 1, EF.fin 1⟩]
    (by decide)

/-- C7: a weights-table row requesting a (lon, lat) coordinate absent
from the grid's axes makes the reindexer fail with the
`LookupError`-class error, and the top-level entry point propagates
that same error synchronously to the caller, with no retry or
recovery. -/
theorem C7_lookup_error_propagates {T L : Type} [DecidableEq L] (grid : Grid T)
    (df : List (WRow L)) (varname aggwt agglev : String) (r : WRow L)
    (hr : r ∈ df) (hmiss : r.lat ∉ grid.lats ∨ r.lon ∉ grid.lons) :
    _reindex_spatial_data_to_regions grid df = .error AggErr.lookupError
    ∧ weighted_aggregate_grid_to_regions grid varname aggwt agglev df
        = .error AggErr.lookupError := by
  have hval : validRows grid.lats grid.lons df = false := by
    cases hb : validRows grid.lats grid.lons df with
    | false => rfl
    | true =>
      exfalso
      rw [validRows, List.all_eq_true] at hb
      have hrr := hb r hr
      rcases hmiss with hm | hm <;> simp [hm] at hrr
  constructor
  · simp [_reindex_spatial_data_to_regions, hval]
  · simp [weighted_aggregate_grid_to_regions,
      _reindex_spatial_data_to_regions, hval]

/-- Witness for C7 at a concrete grid and an out-of-grid row. -/
theorem C7_lookup_error_propagates_witness :
    _reindex_spatial_data_to_regions
        (⟨[0], [0], [("tas", fun _ _ _ => EF.fin 10)]⟩ : Grid Unit)
        [(⟨5, 5, "A", EF.fin 1, EF.fin 1⟩ : WRow String)]
      = .error AggErr.lookupError
    ∧ weighted_aggregate_grid_to_regions
        (⟨[0], [0], [("tas", fun _ _ _ => EF.fin 10)]⟩ : Grid Unit)
        "tas" "popwt" "ISO" [(⟨5, 5, "A", EF.fin 1, EF.fin 1⟩ : WRow String)]
      = .error AggErr.lookupError :=
  C7_lookup_error_propagates
    (⟨[0], [0], [("tas", fun _ _ _ => EF.fin 10)]⟩ : Grid Unit)
    [⟨5, 5, "A", EF.fin 1, EF.fin 1⟩] "tas" "popwt" "ISO"
    ⟨5, 5, "A", EF.fin 1, EF.fin 1⟩ (by decide) (by decide)

/-- The reducer's mutated dataset holds the fallback-adjusted weights
under the `aggwt` name. -/
lemma aggregate_fst_getVar_aggwt {T L : Type} [DecidableEq L] (ds : DS T L)
    (varname aggwt agglev : String) (weights : List (WRow L)) :
    ((_aggregate_reindexed_data_to_regions ds varname aggwt agglev
        weights).1).getVar aggwt
      = some (weights.map (fun r => fun _ : T => effectiveWeight r.aggwt r.backup)) := by
  simp only [_aggregate_reindexed_data_to_regions, DS.getVar_setVar_self,
    Option.getD_some]
  rw [List.zip_map', List.map_map]
  rfl

/-- C8: the top-level entry point leaves the caller's grid unchanged
(reindexing builds a fresh dataset, returned here as the untouched
first component), while the helper reducer mutates the dataset object
passed to it: afterwards it carries a region-label coordinate named
`agglev` holding the weights table's labels and a data variable named
`aggwt` holding the fallback-adjusted weights, with every other
variable and coordinate untouched. -/
theorem C8_helper_mutates_dataset_top_level_preserves_grid {T L : Type}
    [DecidableEq L] (ds : DS T L) (varname aggwt agglev : String)
    (weights : List (WRow L)) :
    (((_aggregate_reindexed_data_to_regions ds varname aggwt agglev
        weights).1).getCoord agglev = some (weights.map (fun r => r.label)))
    ∧ (((_aggregate_reindexed_data_to_regions ds varname aggwt agglev
        weights).1).getVar aggwt
        = some (weights.map (fun r => fun _ : T => effectiveWeight r.aggwt r.backup)))
    ∧ (∀ n, n ≠ aggwt →
        ((_aggregate_reindexed_data_to_regions ds varname aggwt agglev
          weights).1).getVar n = ds.getVar n)
    ∧ (∀ c, c ≠ agglev →
        ((_aggregate_reindexed_data_to_regions ds varname aggwt agglev
          weights).1).getCoord c = ds.getCoord c)
    ∧ (∀ (grid : Grid T) out,
        weighted_aggregate_grid_to_regions grid varname aggwt agglev weights
          = .ok out → out.1 = grid) := by
  refine ⟨?_, aggregate_fst_getVar_aggwt ds varname aggwt agglev weights,
    ?_, ?_, ?_⟩
  · simp [_aggregate_reindexed_data_to_regions]
  · intro n hn
    simp only [_aggregate_reindexed_data_to_regions]
    rw [DS.getVar_setVar_ne _ _ (Ne.symm hn), DS.getVar_setVar_ne _ _ (Ne.symm hn),
      DS.getVar_setCoord]
  · intro c hc
    simp only [_aggregate_reindexed_data_to_regions, DS.getCoord_setVar]
    exact DS.getCoord_setCoord_ne ds _ (Ne.symm hc)
  · intro grid out hok
    cases hre : (_reindex_spatial_data_to_regions grid weights :
        Except AggErr (DS T L)) with
    | error e =>
      rw [weighted_aggregate_grid_to_regions, hre] at hok
      exact absurd hok (by simp)
    | ok dsR =>
      rw [weighted_aggregate_grid_to_regions, hre] at hok
      have := (Except.ok.injEq _ _).mp hok
      rw [← this]

/-- Witness for C8 at a concrete dataset, weights table, and grid. -/
theorem C8_helper_mutates_dataset_top_level_preserves_grid_witness :
    (((_aggregate_reindexed_data_to_regions
        (⟨[("tas", [fun _ => EF.fin 10])], []⟩ : DS Unit String)
        "tas" "popwt" "ISO" [⟨0, 0, "A", EF.fin 2, EF.fin 1⟩]).1).getCoord "ISO"
      = some ["A"])
    ∧ (((_aggregate_reindexed_data_to_regions
        (⟨[("tas", [fun _ => EF.fin 10])], []⟩ : DS Unit String)
        "tas" "popwt" "ISO" [⟨0, 0, "A", EF.fin 2, EF.fin 1⟩]).1).getVar "popwt"
      = some [fun _ => effectiveWeight (EF.fin 2) (EF.fin 1)])
    ∧ (((_aggregate_reindexed_data_to_regions
        (⟨[("tas", [fun _ => EF.fin 10])], []⟩ : DS Unit String)
        "tas" "popwt" "ISO" [⟨0, 0, "A", EF.fin 2, EF.fin 1⟩]).1).getVar "tas"
      = (⟨[("tas", [fun _ => EF.fin 10])], []⟩ : DS Unit String).getVar "tas")
    ∧ (((_aggregate_reindexed_data_to_regions
        (⟨[("tas", [fun _ => EF.fin 10])], []⟩ : DS Unit String)
        "tas" "popwt" "ISO" [⟨0, 0, "A", EF.fin 2, EF.fin 1⟩]).1).getCoord "time"
      = (⟨[("tas", [fun _ => EF.fin 10])], []⟩ : DS Unit String).getCoord "time")
    ∧ ((⟨(⟨[0], [0], [("tas", fun _ _ _ => EF.fin 10)]⟩ : Grid Unit),
        (_aggregate_reindexed_data_to_regions
          (⟨[("tas", [fun _ => EF.fin 10])], []⟩ : DS Unit String)
          "tas" "popwt" "ISO" [⟨0, 0, "A", EF.fin 2, EF.fin 1⟩]).2⟩ :
        Grid Unit × (String → Unit → EF)).1
      = (⟨[0], [0], [("tas", fun _ _ _ => EF.fin 10)]⟩ : Grid Unit)) := by
  have h := C8_helper_mutates_dataset_top_level_preserves_grid
    (⟨[("tas", [fun _ => EF.fin 10])], []⟩ : DS Unit String)
    "tas" "popwt" "ISO" [⟨0, 0, "A", EF.fin 2, EF.fin 1⟩]
  exact ⟨h.1, h.2.1, h.2.2.1 "tas" (by decide), h.2.2.2.1 "time" (by decide),
    h.2.2.2.2 (⟨[0], [0], [("tas", fun _ _ _ => EF.fin 10)]⟩ : Grid Unit)
      _ rfl⟩

/-- A `skipna` sum of well-formed weights is a finite non-negative
number; when it is zero, every summand was zero or NaN. -/
lemma skipSum_wtOk {l : List EF} (h : ∀ x ∈ l, wtOk x) :
    ∃ s : ℚ, skipSum l = EF.fin s ∧ 0 ≤ s
      ∧ (s = 0 → ∀ x ∈ l, x = EF.fin 0 ∨ x = EF.nan) := by
  induction l with
  | nil => exact ⟨0, rfl, le_refl 0, fun _ x hx => absurd hx (List.not_mem_nil x)⟩
  | cons a l ih =>
    obtain ⟨s, hs, hs0, himp⟩ := ih (fun x hx => h x (List.mem_cons_of_mem a hx))
    have ha := h a (List.mem_cons_self a l)
    cases a with
    | fin q =>
      have hq : 0 ≤ q := ha
      refine ⟨q + s, ?_, add_nonneg hq hs0, ?_⟩
      · rw [skipSum_cons_fin, hs, EF.add_fin_fin]
      · intro h0 x hx
        have hq0 : q = 0 := by linarith
        have hss : s = 0 := by linarith
        rcases List.mem_cons.mp hx with rfl | hx'
        · exact Or.inl (congrArg EF.fin hq0)
        · exact himp hss x hx'
    | pinf => exact ha.elim
    | ninf => exact ha.elim
    | nan =>
      refine ⟨s, ?_, hs0, ?_⟩
      · rw [skipSum_cons_nan, hs]
      · intro h0 x hx
        rcases List.mem_cons.mp hx with rfl | hx'
        · exact Or.inr rfl
        · exact himp h0 x hx'

/-- A well-formed weight that fails the `> 0` test is zero or NaN. -/
lemma wtOk_not_gt0_zero_nan {w : EF} (hw : wtOk w) (h : EF.gt0 w = false) :
    w = EF.fin 0 ∨ w = EF.nan := by
  cases w with
  | fin q =>
    left
    have h2 : ¬ 0 < q := by simpa [EF.gt0] using h
    exact congrArg EF.fin (le_antisymm (not_lt.mp h2) hw)
  | pinf => exact hw.elim
  | ninf => exact hw.elim
  | nan => exact Or.inr rfl

/-- C4: for a region whose total post-fallback weight sum is zero (with
well-formed, i.e. non-negative-or-missing, weight columns), the
aggregated value is NaN, in the array path and in the
`aggregate_array` path alike: an undefined result that propagates to
the output rather than being an error, dropped, or zero-filled. -/
theorem C4_zero_weight_region_yields_nan {T L : Type} [DecidableEq L]
    (ds : DS T L) (varname aggwt agglev : String) (weights : List (WRow L))
    (vlist : List (T → EF)) (hvar : ds.getVar varname = some vlist)
    (hlen : vlist.length = weights.length) (hne : varname ≠ aggwt)
    (hnn : ∀ r ∈ weights, wtOk r.aggwt ∧ wtOk r.backup)
    (g : L) (hz : regionDen weights g = EF.fin 0) (t : T) :
    (_aggregate_reindexed_data_to_regions ds varname aggwt agglev
        weights).2 g t = EF.nan
    ∧ aggregateArrayCore (vlist.zip weights) g t = EF.nan := by
  have hall : ∀ x ∈ (weights.filterMap (fun r =>
      if r.label = g then some (effectiveWeight r.aggwt r.backup) else none)),
      wtOk x := by
    intro x hx
    obtain ⟨r, hr, hfx⟩ := List.mem_filterMap.mp hx
    by_cases hlg : r.label = g
    · rw [if_pos hlg] at hfx
      obtain rfl := Option.some.inj hfx
      exact wtOk_effectiveWeight (hnn r hr).1 (hnn r hr).2
    · rw [if_neg hlg] at hfx
      exact absurd hfx (by simp)
  obtain ⟨s, hs, hs0, himp⟩ := skipSum_wtOk hall
  have hsz : s = 0 := by
    rw [regionDen] at hz
    rw [hz] at hs
    exact (EF.fin.injEq _ _).mp hs.symm
  have hmem := himp hsz
  have heffr : ∀ r ∈ weights, r.label = g →
      (effectiveWeight r.aggwt r.backup = EF.fin 0
        ∨ effectiveWeight r.aggwt r.backup = EF.nan) := by
    intro r hr hlg
    exact hmem _ (List.mem_filterMap.mpr ⟨r, hr, by rw [if_pos hlg]⟩)
  have haggwt : ∀ r ∈ weights, r.label = g →
      (r.aggwt = EF.fin 0 ∨ r.aggwt = EF.nan) := by
    intro r hr hlg
    cases hgt : EF.gt0 r.aggwt with
    | false => exact wtOk_not_gt0_zero_nan (hnn r hr).1 hgt
    | true =>
      exfalso
      have he := heffr r hr hlg
      rw [effectiveWeight_of_gt0 _ hgt] at he
      rcases he with he | he <;> rw [he] at hgt <;> norm_num [EF.gt0] at hgt
  have hnum : regionNum (vlist.zip weights) g t = EF.fin 0 := by
    rw [regionNum]
    apply skipSum_zeroNan
    intro x hx
    obtain ⟨p, hp, hfx⟩ := List.mem_filterMap.mp hx
    by_cases hlg : p.2.label = g
    · rw [if_pos hlg] at hfx
      obtain rfl := Option.some.inj hfx
      exact EF.mul_right_zero_nan
        (heffr p.2 (List.of_mem_zip hp).2 hlg) (p.1 t)
    · rw [if_neg hlg] at hfx
      exact absurd hfx (by simp)
  constructor
  · rw [aggregate_snd_eq ds varname aggwt agglev weights vlist hvar hlen hne g t,
      hnum, hz]
    exact EF.div_fin_zero_zero
  · rw [aggregateArrayCore]
    have hgrp : ∀ p ∈ (vlist.zip weights).filter
        (fun p => decide (p.2.label = g)),
        p.2.aggwt = EF.fin 0 ∨ p.2.aggwt = EF.nan := by
      intro p hp
      obtain ⟨hpz, hplg⟩ := List.mem_filter.mp hp
      exact haggwt p.2 (List.of_mem_zip hpz).2 (of_decide_eq_true hplg)
    have hwv : skipSum (((vlist.zip weights).filter
        (fun p => decide (p.2.label = g))).map
          (fun p => EF.mul p.2.aggwt (p.1 t))) = EF.fin 0 := by
      apply skipSum_zeroNan
      intro x hx
      obtain ⟨p, hp, rfl⟩ := List.mem_map.mp hx
      rcases hgrp p hp with h0 | h0 <;> rw [h0]
      · exact EF.mul_fin_zero_left (p.1 t)
      · exact Or.inr (EF.add_nan_left (p.1 t) ▸ EF.mul_nan_left (p.1 t))
    have hws : skipSum (((vlist.zip weights).filter
        (fun p => decide (p.2.label = g))).map
          (fun p => EF.keepWhere p.2.aggwt (EF.notnull (p.1 t)))) = EF.fin 0 := by
      apply skipSum_zeroNan
      intro x hx
      obtain ⟨p, hp, rfl⟩ := List.mem_map.mp hx
      rcases hgrp p hp with h0 | h0 <;> rw [h0] <;>
        cases hb : EF.notnull (p.1 t) <;> simp [EF.keepWhere]
    rw [hwv, hws]
    have h1 : EF.div (EF.fin 1) (EF.fin 0) = EF.pinf := by norm_num [EF.div]
    rw [h1, EF.fillna_pinf]
    norm_num [EF.mul]

/-- Witness for C4 at a concrete one-point region with both weights
zero. -/
theorem C4_zero_weight_region_yields_nan_witness :
    (_aggregate_reindexed_data_to_regions
        (⟨[("tas", [fun _ => EF.fin 10])], []⟩ : DS Unit String)
        "tas" "popwt" "hierid" [⟨0, 0, "A", EF.fin 0, EF.fin 0⟩]).2 "A" ()
      = EF.nan
    ∧ aggregateArrayCore
        ([fun _ => EF.fin 10].zip [(⟨0, 0, "A", EF.fin 0, EF.fin 0⟩ : WRow String)])
        "A" () = EF.nan :=
  C4_zero_weight_region_yields_nan
    (⟨[("tas", [fun _ => EF.fin 10])], []⟩ : DS Unit String)
    "tas" "popwt" "hierid" [⟨0, 0, "A", EF.fin 0, EF.fin 0⟩]
    [fun _ => EF.fin 10] rfl rfl (by decide)
    (by
      intro r hr
      rw [List.mem_singleton] at hr
      subst hr
      exact ⟨le_refl (0 : ℚ), le_refl (0 : ℚ)⟩)
    "A"
    (by norm_num [regionDen, List.filterMap_cons, effectiveWeight,
      EF.keepWhere, EF.gt0, EF.fillna])
    ()

/-- `filterMap` with an if-some-else-none function is a filter followed
by a map. -/
lemma filterMap_ite {α β : Type} (p : α → Prop) [DecidablePred p]
    (h : α → β) (l : List α) :
    l.filterMap (fun x => if p x then some (h x) else none)
      = (l.filter (fun x => decide (p x))).map h := by
  induction l with
  | nil => rfl
  | cons a l ih =>
    by_cases hp : p a <;> simp [List.filterMap_cons, List.filter_cons, hp, ih]

/-- A non-NaN value is non-null. -/
lemma EF.notnull_of_ne_nan {x : EF} (h : x ≠ EF.nan) : EF.notnull x = true := by
  cases x <;> simp_all [EF.notnull]

/-- A strictly positive finite weight passes the `> 0` test. -/
lemma wtPos_gt0 {w : EF} (h : wtPos w) : EF.gt0 w = true := by
  cases w with
  | fin q => exact decide_eq_true h
  | pinf => exact h.elim
  | ninf => exact h.elim
  | nan => exact h.elim

/-- A `skipna` sum of strictly positive finite weights is zero exactly
on the empty list, and a strictly positive finite number otherwise. -/
lemma skipSum_pos {l : List EF} (h : ∀ x ∈ l, wtPos x) :
    (l = [] ∧ skipSum l = EF.fin 0)
    ∨ (∃ s : ℚ, 0 < s ∧ skipSum l = EF.fin s) := by
  induction l with
  | nil => exact Or.inl ⟨rfl, rfl⟩
  | cons a l ih =>
    have ha := h a (List.mem_cons_self a l)
    cases a with
    | fin q =>
      have hq : 0 < q := ha
      rcases ih (fun x hx => h x (List.mem_cons_of_mem _ hx)) with
        ⟨hnil, hsum⟩ | ⟨s, hs, hsum⟩
      · refine Or.inr ⟨q, hq, ?_⟩
        rw [skipSum_cons_fin, hsum, EF.add_fin_fin, add_zero]
      · exact Or.inr ⟨q + s, add_pos hq hs, by
          rw [skipSum_cons_fin, hsum, EF.add_fin_fin]⟩
    | pinf => exact ha.elim
    | ninf => exact ha.elim
    | nan => exact ha.elim

/-- Dividing by a positive finite weight sum agrees with multiplying by
its `fillna(0)`-guarded reciprocal (the final step of
`aggregate_array`). -/
lemma EF.div_eq_mul_recip (S : EF) {s : ℚ} (hs : 0 < s) :
    EF.div S (EF.fin s)
      = EF.mul S (EF.fillna (EF.div (EF.fin 1) (EF.fin s)) (EF.fin 0)) := by
  have hne : s ≠ 0 := ne_of_gt hs
  rw [EF.div_fin_fin 1 s hne, EF.fillna_fin]
  cases S with
  | fin a =>
    rw [EF.div_fin_fin a s hne, EF.mul_fin_fin]
    congr 1
    field_simp
  | pinf => simp [EF.div, EF.mul, hs, hs.le, one_div_pos.mpr hs]
  | ninf => simp [EF.div, EF.mul, hs, hs.le, one_div_pos.mpr hs]
  | nan => rfl

/-- Zipping a mapped list with the list itself pairs each element with
its image. -/
lemma zip_map_self {α β : Type} (F : α → β) (l : List α) :
    (l.map F).zip l = l.map (fun a => (F a, a)) := by
  induction l with
  | nil => rfl
  | cons a l ih => simp [List.map_cons, List.zip_cons_cons, ih]

/-- The reducer's numerator terms for a region, with all primary
weights strictly positive, match the `aggregate_array` numerator terms
(weight times value, no fallback). -/
lemma num_list_eq {T L : Type} [DecidableEq L] (f : ℚ → ℚ → T → EF)
    (rows : List (WRow L)) (hpos : ∀ r ∈ rows, wtPos r.aggwt) (g : L) (t : T) :
    rows.filterMap (fun r =>
        if r.label = g then
          some (EF.mul (f r.lon r.lat t) (effectiveWeight r.aggwt r.backup))
        else none)
      = rows.filterMap (fun r =>
          if r.label = g then some (EF.mul r.aggwt (f r.lon r.lat t))
          else none) := by
  induction rows with
  | nil => rfl
  | cons a l ih =>
    have ha := effectiveWeight_of_gt0 a.backup
      (wtPos_gt0 (hpos a (List.mem_cons_self a l)))
    have ih' := ih (fun r hr => hpos r (List.mem_cons_of_mem a hr))
    by_cases hg : a.label = g <;>
      simp [List.filterMap_cons, hg, ha, EF.mul_comm, ih']

/-- The reducer's denominator terms for a region, with all primary
weights strictly positive, are just the raw weights. -/
lemma den_list_eq {L : Type} [DecidableEq L] (rows : List (WRow L))
    (hpos : ∀ r ∈ rows, wtPos r.aggwt) (g : L) :
    rows.filterMap (fun r =>
        if r.label = g then some (effectiveWeight r.aggwt r.backup) else none)
      = rows.filterMap (fun r =>
          if r.label = g then some r.aggwt else none) := by
  induction rows with
  | nil => rfl
  | cons a l ih =>
    have ha := effectiveWeight_of_gt0 a.backup
      (wtPos_gt0 (hpos a (List.mem_cons_self a l)))
    have ih' := ih (fun r hr => hpos r (List.mem_cons_of_mem a hr))
    by_cases hg : a.label = g <;> simp [List.filterMap_cons, hg, ha, ih']

/-- The `aggregate_array` weighted column, grouped, as a filtered sum
over the weights rows. -/
lemma core_wv_list {T L : Type} [DecidableEq L] (f : ℚ → ℚ → T → EF)
    (rows : List (WRow L)) (g : L) (t : T) :
    ((rows.map (fun r => (f r.lon r.lat, r))).filter
        (fun p => decide (p.2.label = g))).map (fun p => EF.mul p.2.aggwt (p.1 t))
      = rows.filterMap (fun r =>
          if r.label = g then some (EF.mul r.aggwt (f r.lon r.lat t))
          else none) := by
  induction rows with
  | nil => rfl
  | cons a l ih =>
    by_cases hg : a.label = g <;>
      simp [List.map_cons, List.filter_cons, List.filterMap_cons, hg, ih]

/-- The `aggregate_array` masked weight column, grouped, with all
values non-NaN, is just the raw weights. -/
lemma core_ws_list {T L : Type} [DecidableEq L] (f : ℚ → ℚ → T → EF)
    (rows : List (WRow L)) (hval : ∀ r ∈ rows, ∀ t, f r.lon r.lat t ≠ EF.nan)
    (g : L) (t : T) :
    ((rows.map (fun r => (f r.lon r.lat, r))).filter
        (fun p => decide (p.2.label = g))).map
          (fun p => EF.keepWhere p.2.aggwt (EF.notnull (p.1 t)))
      = rows.filterMap (fun r =>
          if r.label = g then some r.aggwt else none) := by
  induction rows with
  | nil => rfl
  | cons a l ih =>
    have ha : EF.notnull (f a.lon a.lat t) = true :=
      EF.notnull_of_ne_nan (hval a (List.mem_cons_self a l) t)
    have ih' := ih (fun r hr => hval r (List.mem_cons_of_mem a hr))
    by_cases hg : a.label = g <;>
      simp [List.map_cons, List.filter_cons, List.filterMap_cons, hg, ha,
        EF.keepWhere_true, ih']

/-- C3 (amended): `aggregate_array` implements no backup-weight
fallback; on single-region-level inputs in which every primary weight
is strictly positive (so the array path's fallback never fires) and
every sampled value is defined (non-NaN), it produces numerically
identical per-region results to the array-based path
(`_reindex_spatial_data_to_regions` followed by
`_aggregate_reindexed_data_to_regions`), including agreeing on the NaN
result for labels with no points; on coordinate-lookup failure both
paths raise the same error. -/
theorem C3_amended_equivalence_positive_weights {T L : Type} [DecidableEq L]
    (grid : Grid T) (rows : List (WRow L)) (varname aggwt agglev : String)
    (f : ℚ → ℚ → T → EF) (hvar : grid.getVar varname = some f)
    (hne : varname ≠ aggwt) (hpos : ∀ r ∈ rows, wtPos r.aggwt)
    (hval : ∀ r ∈ rows, ∀ t, f r.lon r.lat t ≠ EF.nan) (g : L) (t : T) :
    (weighted_aggregate_grid_to_regions grid varname aggwt agglev rows).map
        (fun p => p.2 g t)
      = (aggregate_array f grid.lats grid.lons rows).map (fun res => res g t) := by
  cases hvr : validRows grid.lats grid.lons rows with
  | false =>
    have h1 : _reindex_spatial_data_to_regions grid rows
        = (.error AggErr.lookupError : Except AggErr (DS T L)) := by
      simp [_reindex_spatial_data_to_regions, hvr]
    have hTop : weighted_aggregate_grid_to_regions grid varname aggwt agglev rows
        = .error AggErr.lookupError := by
      unfold weighted_aggregate_grid_to_regions
      rw [h1]
    have h2 : aggregate_array f grid.lats grid.lons rows
        = .error AggErr.lookupError := by
      simp [aggregate_array, hvr]
    rw [hTop, h2]
    rfl
  | true =>
    have h1 : _reindex_spatial_data_to_regions grid rows
        = .ok ⟨grid.vars.map
            (fun p => (p.1, rows.map (fun r => p.2 r.lon r.lat))), []⟩ := by
      simp [_reindex_spatial_data_to_regions, hvr]
    have hTop : weighted_aggregate_grid_to_regions grid varname aggwt agglev rows
        = .ok (grid, (_aggregate_reindexed_data_to_regions
            (⟨grid.vars.map
              (fun p => (p.1, rows.map (fun r => p.2 r.lon r.lat))), []⟩ : DS T L)
            varname aggwt agglev rows).2) := by
      unfold weighted_aggregate_grid_to_regions
      rw [h1]
    have h2 : aggregate_array f grid.lats grid.lons rows
        = .ok (fun g t => aggregateArrayCore
            ((rows.map (fun r => f r.lon r.lat)).zip rows) g t) := by
      simp [aggregate_array, hvr]
    have hvarDS : (⟨grid.vars.map
        (fun p => (p.1, rows.map (fun r => p.2 r.lon r.lat))), []⟩ : DS T L).getVar
          varname = some (rows.map (fun r => f r.lon r.lat)) := by
      have hmap := getAssoc_map (fun fv : ℚ → ℚ → T → EF =>
        rows.map (fun r => fv r.lon r.lat)) grid.vars varname
      rw [show Grid.getVar grid varname = getAssoc grid.vars varname from rfl] at hvar
      rw [hvar, Option.map_some'] at hmap
      exact hmap
    rw [hTop, h2]
    simp only [Except.map, Except.ok.injEq]
    rw [aggregate_snd_eq _ varname aggwt agglev rows _ hvarDS
      (List.length_map _ _) hne g t]
    rw [zip_map_self (fun r : WRow L => f r.lon r.lat) rows]
    simp only [aggregateArrayCore]
    rw [core_wv_list f rows g t, core_ws_list f rows hval g t]
    have hRN : regionNum (rows.map (fun r => (f r.lon r.lat, r))) g t
        = skipSum (rows.filterMap (fun r =>
            if r.label = g then some (EF.mul r.aggwt (f r.lon r.lat t))
            else none)) := by
      unfold regionNum
      rw [List.filterMap_map]
      exact congrArg skipSum (num_list_eq f rows hpos g t)
    have hRD : regionDen rows g
        = skipSum (rows.filterMap (fun r =>
            if r.label = g then some r.aggwt else none)) := by
      unfold regionDen
      exact congrArg skipSum (den_list_eq rows hpos g)
    rw [hRN, hRD]
    have hDpos : ∀ x ∈ rows.filterMap (fun r =>
        if r.label = g then some r.aggwt else none), wtPos x := by
      intro x hx
      obtain ⟨r, hr, hfx⟩ := List.mem_filterMap.mp hx
      by_cases hg : r.label = g
      · rw [if_pos hg] at hfx
        obtain rfl := Option.some.inj hfx
        exact hpos r hr
      · rw [if_neg hg] at hfx
        exact absurd hfx (by simp)
    rcases skipSum_pos hDpos with ⟨hnil, hzero⟩ | ⟨s, hs, hsum⟩
    · have hNnil : rows.filterMap (fun r =>
          if r.label = g then some (EF.mul r.aggwt (f r.lon r.lat t))
          else none) = [] := by
        rw [List.filterMap_eq_nil_iff] at hnil ⊢
        intro r hr
        have hrn := hnil r hr
        by_cases hg : r.label = g
        · rw [if_pos hg] at hrn
          exact absurd hrn (by simp)
        · rw [if_neg hg]
      rw [hNnil, hnil]
      simp only [skipSum_nil]
      rw [EF.div_fin_zero_zero]
      have hp : EF.div (EF.fin 1) (EF.fin 0) = EF.pinf := by norm_num [EF.div]
      rw [hp, EF.fillna_pinf]
      norm_num [EF.mul]
    · rw [hsum]
      exact EF.div_eq_mul_recip _ hs

/-- Witness for the amended C3 at a concrete all-positive-weight
input. -/
theorem C3_amended_equivalence_positive_weights_witness :
    (weighted_aggregate_grid_to_regions
        (⟨[0], [0], [("tas", fun _ _ _ => EF.fin 10)]⟩ : Grid Unit)
        "tas" "popwt" "hierid" [(⟨0, 0, "A", EF.fin 2, EF.fin 1⟩ : WRow String)]).map
      (fun p => p.2 "A" ())
      = (aggregate_array (fun _ _ _ => EF.fin 10) [0] [0]
          [(⟨0, 0, "A", EF.fin 2, EF.fin 1⟩ : WRow String)]).map
        (fun res => res "A" ()) :=
  C3_amended_equivalence_positive_weights
    (⟨[0], [0], [("tas", fun _ _ _ => EF.fin 10)]⟩ : Grid Unit)
    [⟨0, 0, "A", EF.fin 2, EF.fin 1⟩] "tas" "popwt" "hierid"
    (fun _ _ _ => EF.fin 10) rfl (by decide)
    (by
      intro r hr
      rw [List.mem_singleton] at hr
      subst hr
      norm_num [wtPos])
    (fun _ _ _ => by simp) "A" ()

/-- C3 counterexample: on a single-region-level input where every value
is defined, a point with primary weight 0 and backup weight 1 makes the
array-based path (which applies the backup fallback) return 10 while
`aggregate_array` (which has no backup fallback) returns NaN — the two
paths are not numerically identical, contradicting the claim. -/
theorem C3_counterexample_no_backup_fallback_in_aggregate_array :
    (weighted_aggregate_grid_to_regions
        (⟨[0], [0], [("tas", fun _ _ _ => EF.fin 10)]⟩ : Grid Unit)
        "tas" "popwt" "hierid" [(⟨0, 0, "A", EF.fin 0, EF.fin 1⟩ : WRow String)]).map
      (fun p => p.2 "A" ())
      = .ok (EF.fin 10)
    ∧ (aggregate_array (fun _ _ _ => EF.fin 10) [0] [0]
        [(⟨0, 0, "A", EF.fin 0, EF.fin 1⟩ : WRow String)]).map
        (fun res => res "A" ())
      = .ok EF.nan
    ∧ EF.fin 10 ≠ EF.nan := by
  refine ⟨?_, ?_, by simp⟩
  · have hTop : weighted_aggregate_grid_to_regions
        (⟨[0], [0], [("tas", fun _ _ _ => EF.fin 10)]⟩ : Grid Unit)
        "tas" "popwt" "hierid" [(⟨0, 0, "A", EF.fin 0, EF.fin 1⟩ : WRow String)]
        = .ok ((⟨[0], [0], [("tas", fun _ _ _ => EF.fin 10)]⟩ : Grid Unit),
            (_aggregate_reindexed_data_to_regions
              (⟨[("tas", [fun _ => EF.fin 10])], []⟩ : DS Unit String)
              "tas" "popwt" "hierid"
              [⟨0, 0, "A", EF.fin 0, EF.fin 1⟩]).2) := rfl
    rw [hTop]
    simp only [Except.map, Except.ok.injEq]
    rw [aggregate_snd_eq (⟨[("tas", [fun _ => EF.fin 10])], []⟩ : DS Unit String)
      "tas" "popwt" "hierid"
      [⟨0, 0, "A", EF.fin 0, EF.fin 1⟩] [fun _ => EF.fin 10] rfl rfl
      (by decide) "A" ()]
    norm_num [regionNum, regionDen, List.filterMap_cons, List.zip_cons_cons,
      effectiveWeight, EF.keepWhere, EF.gt0, EF.fillna, EF.div]
  · have hArr : aggregate_array
        ((fun _ _ _ => EF.fin 10) : ℚ → ℚ → Unit → EF) [0] [0]
        [(⟨0, 0, "A", EF.fin 0, EF.fin 1⟩ : WRow String)]
        = .ok (fun g t => aggregateArrayCore
            ([(fun _ => EF.fin 10 : Unit → EF)].zip
              [(⟨0, 0, "A", EF.fin 0, EF.fin 1⟩ : WRow String)]) g t) := rfl
    rw [hArr]
    simp only [Except.map, Except.ok.injEq]
    have h1 : EF.div (EF.fin 1) (EF.fin 0) = EF.pinf := by norm_num [EF.div]
    norm_num [aggregateArrayCore, List.filter_cons, List.zip_cons_cons,
      List.map_cons, EF.keepWhere, EF.notnull, h1, EF.fillna_pinf, EF.mul]

end ClimateToolbox
